import Mathlib

/-!
Verification of the datacube ingestion scheduling pipeline and the s3
chunk-addressing index.

The development shallowly embeds the relevant code of
`datacube/scripts/ingest.py` and `datacube/drivers/s3/index.py`:

* the diff engine (`remove_duplicates`, `find_diff`),
* the bounded-queue task scheduler (`process_tasks`),
* the s3 chunk index store (`DatasetResource.add_s3_tables` and helpers,
  `Index.add_datasets`),
* the memoized lineage lookup (`get_full_lineage`).

Pure functions become Lean functions; the mutating Python code becomes
explicit state passing; exceptions become `Except`; the executor and the
database/catalog collaborators become explicit parameters (oracles).
-/

namespace Datacube

/-! ## Diff engine (`remove_duplicates`, `find_diff` in ingest.py) -/

/-- A spatial grid cell index (the `extent` keys of the cell maps). -/
abbrev Extent := Int × Int

/-- A value of `cell.sources.coords['time'].values`. -/
abbrev Timestamp := Int

/-- A cell map as consumed by `remove_duplicates`: the association of an
extent to the ordered time axis of the cell's sources
(`cell.sources.coords['time'].values`). Python dicts are ordered, hence a
list of pairs. -/
abbrev CellMap := List (Extent × List Timestamp)

/-- Membership of the signature `(extent, t)` in the signature set
`sigs_out` computed by `remove_duplicates` from `cells_out`. -/
def sigMem (cells_out : CellMap) (extent : Extent) (t : Timestamp) : Bool :=
  cells_out.any (fun ec => ec.1 == extent && ec.2.contains t)

/-- Embedding of `remove_duplicates(cells_in, cells_out)`
(ingest.py lines 35-54). The Python function mutates `cells_in` in place;
here the updated map is returned. For each cell it keeps exactly the
timestamps whose `(extent, timestamp)` signature is not in `sigs_out`,
and it returns immediately when `cells_out` is empty. -/
def remove_duplicates (cells_in cells_out : CellMap) : CellMap :=
  if cells_out.isEmpty then cells_in
  else cells_in.map (fun ec => (ec.1, ec.2.filter (fun t => !(sigMem cells_out ec.1 t))))

/-- The `(extent, t)` signature occurs among the cells of `cells_out`
(propositional form of `sigMem`). -/
def SigOccurs (cells_out : CellMap) (extent : Extent) (t : Timestamp) : Prop :=
  ∃ ec ∈ cells_out, ec.1 = extent ∧ t ∈ ec.2

/-- Modelled from the spec: `task['tile'].split('time', time_size)`
(ingest.py line 68) calls `datacube.api.Tile.split`, which is not under
src/.  Per the spec it splits the cell's time axis into contiguous runs of
at most `S` timestamps, in the original order.  For `S = 0` this embedding
behaves like `S = 1`; `find_diff` is only used with `S ≥ 1`. -/
def chunkList (S : Nat) : List Timestamp → List (List Timestamp)
  | [] => []
  | t :: ts => (t :: ts.take (S - 1)) :: chunkList S (ts.drop (S - 1))
termination_by l => l.length
decreasing_by
  simp only [List.length_drop, List.length_cons]
  omega

/-- A task emitted by `find_diff`: the time slice of a cell paired with
the originating cell's `tile_index`. -/
structure IngestTask where
  tile_index : Extent
  tile_times : List Timestamp
deriving DecidableEq, Repr

/-- The tasks `find_diff` emits for one (de-duplicated) cell: one task per
time run of at most `S` timestamps, all sharing the cell's extent as
`tile_index` (ingest.py lines 65-70). -/
def cellTasks (S : Nat) (ec : Extent × List Timestamp) : List IngestTask :=
  (chunkList S ec.2).map (fun run => ⟨ec.1, run⟩)

/-- Embedding of `find_diff` (ingest.py lines 57-72) downstream of the two
catalog reads: de-duplicate `cells_in` against `cells_out`, then emit the
time-sliced tasks of every remaining cell. -/
def find_diff (cells_in cells_out : CellMap) (S : Nat) : List IngestTask :=
  ((remove_duplicates cells_in cells_out).map (cellTasks S)).flatten

/-! ### Diff-engine theorems (claims C2, C3) -/

/-- `sigMem` decides `SigOccurs`. -/
theorem sigMem_eq_true_iff (cells_out : CellMap) (e : Extent) (t : Timestamp) :
    sigMem cells_out e t = true ↔ SigOccurs cells_out e t := by
  simp [sigMem, SigOccurs, List.any_eq_true, List.contains_iff_exists_mem_beq]

/-- Negative form of `sigMem_eq_true_iff`. -/
theorem sigMem_eq_false_iff (cells_out : CellMap) (e : Extent) (t : Timestamp) :
    sigMem cells_out e t = false ↔ ¬ SigOccurs cells_out e t := by
  rw [← sigMem_eq_true_iff]
  cases sigMem cells_out e t <;> simp

/-- Claim C2: `remove_duplicates(cells_in, cells_out)` removes from each
cell of `cells_in` exactly the timestamps whose `(extent, timestamp)`
signature occurs in `cells_out` and nothing else (cells keep their extent,
position, relative order and multiplicities of surviving timestamps), and
when `cells_out` is empty it is the identity. -/
theorem remove_duplicates_exact (cells_in cells_out : CellMap) :
    (cells_out = [] → remove_duplicates cells_in cells_out = cells_in) ∧
    (remove_duplicates cells_in cells_out).length = cells_in.length ∧
    (∀ (i : Nat) (e : Extent) (ts : List Timestamp) (e' : Extent) (ts' : List Timestamp),
      cells_in[i]? = some (e, ts) →
      (remove_duplicates cells_in cells_out)[i]? = some (e', ts') →
      e' = e ∧ ts'.Sublist ts ∧
      (∀ t, t ∈ ts' ↔ t ∈ ts ∧ ¬ SigOccurs cells_out e t) ∧
      (∀ t, SigOccurs cells_out e t → ts'.count t = 0) ∧
      (∀ t, ¬ SigOccurs cells_out e t → ts'.count t = ts.count t)) := by
  by_cases hout : cells_out.isEmpty
  · have hceq : cells_out = [] := List.isEmpty_iff.mp hout
    subst hceq
    refine ⟨fun _ => by simp [remove_duplicates], by simp [remove_duplicates], ?_⟩
    intro i e ts e' ts' h1 h2
    simp only [remove_duplicates, List.isEmpty_nil, if_true, h1] at h2
    obtain ⟨rfl, rfl⟩ : e = e' ∧ ts = ts' := by
      have := Option.some.inj h2
      exact ⟨congrArg Prod.fst this, congrArg Prod.snd this⟩
    refine ⟨rfl, List.Sublist.refl ts, ?_, ?_, fun t _ => rfl⟩
    · intro t
      simp [SigOccurs]
    · intro t ht
      simp [SigOccurs] at ht
  · have hne : cells_out.isEmpty = false := by
      cases h : cells_out.isEmpty
      · rfl
      · exact absurd h hout
    refine ⟨fun hceq => by simp [hceq] at hne, ?_, ?_⟩
    · rw [remove_duplicates, if_neg (by simp [hne])]
      exact List.length_map _ _
    · intro i e ts e' ts' h1 h2
      rw [remove_duplicates, if_neg (by simp [hne]), List.getElem?_map, h1] at h2
      simp only [Option.map_some'] at h2
      have h2' := Option.some.inj h2
      have he : e' = e := (congrArg Prod.fst h2').symm
      have hts : ts' = ts.filter (fun t => !(sigMem cells_out e t)) :=
        (congrArg Prod.snd h2').symm
      subst he
      subst hts
      refine ⟨rfl, List.filter_sublist ts, ?_, ?_, ?_⟩
      · intro t
        simp only [List.mem_filter, Bool.not_eq_true', sigMem_eq_false_iff]
      · intro t ht
        rw [List.count_eq_zero]
        intro hmem
        have := (List.mem_filter.mp hmem).2
        rw [Bool.not_eq_true', sigMem_eq_false_iff] at this
        exact this ht
      · intro t ht
        exact List.count_filter (by rw [Bool.not_eq_true', sigMem_eq_false_iff]; exact ht)

/-- Concrete source cell map used by the C2 witness. -/
def cIn0 : CellMap := [(((0 : Int), (0 : Int)), [1, 2, 3])]

/-- Concrete output cell map used by the C2 witness: timestamp 2 is
already present at the same extent, timestamp 3 only at another extent. -/
def cOut0 : CellMap := [(((0 : Int), (0 : Int)), [2]), (((1 : Int), (1 : Int)), [3])]

/-- Witness for claim C2 at a concrete input: timestamp 3 survives because
its signature pairs it with a different extent in `cOut0`. -/
theorem remove_duplicates_exact_witness :
    (3 : Timestamp) ∈ [(1 : Timestamp), 3] ↔
      (3 : Timestamp) ∈ [(1 : Timestamp), 2, 3] ∧ ¬ SigOccurs cOut0 ((0 : Int), (0 : Int)) 3 :=
  ((remove_duplicates_exact cIn0 cOut0).2.2 0 ((0 : Int), (0 : Int)) [1, 2, 3]
    ((0 : Int), (0 : Int)) [1, 3] rfl rfl).2.2.1 3

/-- Flattening the time runs recovers the original time axis. -/
theorem chunkList_flatten (S : Nat) : ∀ (l : List Timestamp), (chunkList S l).flatten = l
  | [] => by simp [chunkList]
  | t :: ts => by
    rw [chunkList]
    simp only [List.flatten_cons]
    rw [chunkList_flatten S (ts.drop (S - 1))]
    simp [List.take_append_drop]
termination_by l => l.length
decreasing_by
  simp only [List.length_drop, List.length_cons]
  omega

/-- The number of time runs is the ceiling of `length / S`. -/
theorem chunkList_length (S : Nat) (hS : 1 ≤ S) : ∀ (l : List Timestamp),
    (chunkList S l).length = (l.length + S - 1) / S
  | [] => by
    simp only [chunkList, List.length_nil, Nat.zero_add]
    exact (Nat.div_eq_of_lt (by omega)).symm
  | t :: ts => by
    have hrec := chunkList_length S hS (ts.drop (S - 1))
    rw [chunkList]
    simp only [List.length_cons, List.length_drop] at hrec ⊢
    rw [hrec]
    rcases le_or_lt (S - 1) ts.length with h | h
    · have h1 : ts.length - (S - 1) + S - 1 = ts.length := by omega
      have h2 : ts.length + 1 + S - 1 = ts.length + S := by omega
      rw [h1, h2, Nat.add_div_right _ (by omega)]
    · have h1 : ts.length - (S - 1) + S - 1 = S - 1 := by omega
      have h2 : ts.length + 1 + S - 1 = ts.length + S := by omega
      rw [h1, h2, Nat.add_div_right _ (by omega), Nat.div_eq_of_lt (by omega),
        Nat.div_eq_of_lt (by omega)]
termination_by l => l.length
decreasing_by
  simp only [List.length_drop, List.length_cons]
  omega

/-- Every time run holds at most `S` timestamps. -/
theorem chunkList_run_length (S : Nat) (hS : 1 ≤ S) : ∀ (l : List Timestamp),
    ∀ run ∈ chunkList S l, run.length ≤ S
  | [] => by simp [chunkList]
  | t :: ts => by
    intro run hrun
    rw [chunkList] at hrun
    rcases List.mem_cons.mp hrun with rfl | hrun
    · simp only [List.length_cons, List.length_take]
      omega
    · exact chunkList_run_length S hS (ts.drop (S - 1)) run hrun
termination_by l => l.length
decreasing_by
  simp only [List.length_drop, List.length_cons]
  omega

/-- Claim C3: for a cell with `T` remaining timestamps and slice size
`S ≥ 1`, `find_diff` emits exactly `⌈T / S⌉` tasks for that cell (the
per-cell emission `cellTasks` inside `find_diff`), each task's time slice
has at most `S` timestamps, every emitted task carries the cell's
`tile_index`, and the concatenation of the tasks' timestamps is the cell's
time axis in original order. -/
theorem cellTasks_spec (S : Nat) (ec : Extent × List Timestamp) (hS : 1 ≤ S) :
    (cellTasks S ec).length = (ec.2.length + S - 1) / S ∧
    (∀ tk ∈ cellTasks S ec, tk.tile_times.length ≤ S ∧ tk.tile_index = ec.1) ∧
    ((cellTasks S ec).map IngestTask.tile_times).flatten = ec.2 := by
  refine ⟨?_, ?_, ?_⟩
  · simp [cellTasks, chunkList_length S hS]
  · intro tk htk
    simp only [cellTasks, List.mem_map] at htk
    obtain ⟨run, hrun, rfl⟩ := htk
    exact ⟨chunkList_run_length S hS _ run hrun, rfl⟩
  · simp only [cellTasks, List.map_map]
    have hid : IngestTask.tile_times ∘ (fun run => (⟨ec.1, run⟩ : IngestTask)) = id := rfl
    rw [hid, List.map_id, chunkList_flatten]

/-- Witness for claim C3: a cell with 7 timestamps and slice size 3
yields `⌈7/3⌉ = 3` tasks of sizes 3, 3, 1. -/
theorem cellTasks_spec_witness :
    (cellTasks 3 (((0 : Int), (0 : Int)), [1, 2, 3, 4, 5, 6, 7])).length = (7 + 3 - 1) / 3 ∧
    (∀ tk ∈ cellTasks 3 (((0 : Int), (0 : Int)), [1, 2, 3, 4, 5, 6, 7]),
      tk.tile_times.length ≤ 3 ∧ tk.tile_index = ((0 : Int), (0 : Int))) ∧
    ((cellTasks 3 (((0 : Int), (0 : Int)), [1, 2, 3, 4, 5, 6, 7])).map
      IngestTask.tile_times).flatten = [1, 2, 3, 4, 5, 6, 7] :=
  cellTasks_spec 3 (((0 : Int), (0 : Int)), [1, 2, 3, 4, 5, 6, 7]) (by decide)

/-! ## Task scheduler (`process_tasks` in ingest.py, lines 295-337)

The executor and the catalog are collaborators: each scheduling cycle the
executor partitions the in-flight handles into completed/failed/still
pending (`executor.get_ready`), `executor.result(future)` on a failed
handle may re-raise, and the catalog-indexing pass
(`_index_datasets` via `driver_manager.index_datasets`, i.e.
`Index.add_datasets` in s3/index.py, which returns the number of datasets
in the batch) may raise.  All of this is modelled by a per-cycle oracle
`CycleEnv`; the scheduler itself is embedded faithfully. -/

/-- A task submitted to the executor.  Submitting returns a future for the
task, so the task itself doubles as its handle.  `numDatasets` is the
number of logical datasets in the task's result (`ingest_work` produces
one dataset per timestamp of the tile; `Index.add_datasets` returns that
count, which `_index_datasets` adds to the success counter). -/
structure WorkTask where
  tile_index : Int × Int
  numDatasets : Nat
deriving DecidableEq, Repr

/-- The environment's behaviour for one scheduling cycle:
`executor.get_ready(pending)` returns `(completed, failed, stillPending)`;
`resultRaises t` says whether `executor.result` on failed handle `t`
raises; `indexOk` says whether the catalog-indexing pass over the
completed batch succeeds. -/
structure CycleEnv where
  completed : List WorkTask
  failed : List WorkTask
  stillPending : List WorkTask
  resultRaises : WorkTask → Bool
  indexOk : Bool

/-- The scheduler loop state: the unconsumed task sequence, the in-flight
list `pending`, the two counters, and the cycle number (used to index the
oracle). -/
structure SchedState where
  tasks : List WorkTask
  pending : List WorkTask
  nSuccessful : Nat
  nFailed : Nat
  cycle : Nat
deriving Repr

/-- The top-up step (ingest.py line 310):
`pending += [submit_task(task) for task in itertools.islice(tasks,
max(0, queue_size - len(pending)))]`.  Natural subtraction embeds the
`max(0, ...)`. -/
def topUp (queue_size : Nat) (s : SchedState) : SchedState :=
  let k := queue_size - s.pending.length
  { s with pending := s.pending ++ s.tasks.take k, tasks := s.tasks.drop k }

/-- The rest of one scheduling cycle (ingest.py lines 314-335), after a
non-empty top-up: `get_ready` partitions `pending` (per the oracle `r`);
each failed future whose `result` raises bumps the failure counter; if
nothing completed the loop just sleeps and continues; otherwise the batch
is gathered and indexed — on success the success counter grows by the
number of datasets indexed, on failure (`except: pending += completed`)
the completed batch is pushed back into `pending`. -/
def applyCycle (r : CycleEnv) (s : SchedState) : SchedState :=
  let nf := s.nFailed + r.failed.countP r.resultRaises
  if r.completed.isEmpty then
    { s with pending := r.stillPending, nFailed := nf, cycle := s.cycle + 1 }
  else if r.indexOk then
    { s with pending := r.stillPending,
             nSuccessful := s.nSuccessful + (r.completed.map WorkTask.numDatasets).sum,
             nFailed := nf, cycle := s.cycle + 1 }
  else
    { s with pending := r.stillPending ++ r.completed, nFailed := nf, cycle := s.cycle + 1 }

/-- The `while True` loop of `process_tasks`, run with fuel.  Its first
component records `len(pending)` at the start of every top-up step
reached (the loop observations needed for the queue-bound claim); the
second is `some (n_successful, n_failed)` when the loop exits via
`if not pending: break` within the fuel. -/
def processTasksGo (env : Nat → List WorkTask → CycleEnv) (queue_size : Nat) :
    Nat → SchedState → List Nat × Option (Nat × Nat)
  | 0, _ => ([], none)
  | fuel + 1, s =>
    let s1 := topUp queue_size s
    if s1.pending.isEmpty then ([s.pending.length], some (s1.nSuccessful, s1.nFailed))
    else
      let out := processTasksGo env queue_size fuel (applyCycle (env s1.cycle s1.pending) s1)
      (s.pending.length :: out.1, out.2)

/-- Embedding of `process_tasks(driver_manager, config, source_type,
output_type, tasks, queue_size, executor)` (ingest.py lines 295-337),
starting from `pending = []` and zeroed counters. -/
def process_tasks (env : Nat → List WorkTask → CycleEnv) (queue_size fuel : Nat)
    (tasks : List WorkTask) : List Nat × Option (Nat × Nat) :=
  processTasksGo env queue_size fuel
    { tasks := tasks, pending := [], nSuccessful := 0, nFailed := 0, cycle := 0 }

/-- The executor contract: `get_ready` partitions its argument into
completed, failed and still-pending handles. -/
def ExecContract (env : Nat → List WorkTask → CycleEnv) : Prop :=
  ∀ i p, ((env i p).completed ++ (env i p).failed ++ (env i p).stillPending).Perm p

/-- A serial-executor-like environment: everything submitted is
immediately completed, and indexing always succeeds. -/
def happyEnv : Nat → List WorkTask → CycleEnv :=
  fun _ p =>
    { completed := p, failed := [], stillPending := [], resultRaises := fun _ => true,
      indexOk := true }

/-- `happyEnv` satisfies the executor contract. -/
theorem happyEnv_contract : ExecContract happyEnv := by
  intro i p
  simp [happyEnv]

/-! ### Scheduler theorems (claims C1, C4, C5, C9) -/

/-- After a top-up, `pending` still fits the queue bound. -/
theorem topUp_pending_le (qs : Nat) (s : SchedState) (h : s.pending.length ≤ qs) :
    (topUp qs s).pending.length ≤ qs := by
  simp only [topUp, List.length_append, List.length_take]
  omega

/-- A cycle never grows `pending` beyond what `get_ready` received, even
when a failed indexing pass pushes the completed batch back. -/
theorem applyCycle_pending_le (r : CycleEnv) (s : SchedState)
    (hperm : (r.completed ++ r.failed ++ r.stillPending).Perm s.pending) :
    (applyCycle r s).pending.length ≤ s.pending.length := by
  have hlen := hperm.length_eq
  simp only [List.length_append] at hlen
  unfold applyCycle
  by_cases h1 : r.completed.isEmpty <;> by_cases h2 : r.indexOk <;>
    simp [h1, h2, List.length_append] <;> omega

/-- Queue-bound invariant for the scheduler loop. -/
theorem processTasksGo_bound (env : Nat → List WorkTask → CycleEnv) (qs : Nat)
    (hc : ExecContract env) :
    ∀ fuel (s : SchedState), s.pending.length ≤ qs →
      ∀ x ∈ (processTasksGo env qs fuel s).1, x ≤ qs
  | 0, s => by
    intro h x hx
    simp [processTasksGo] at hx
  | fuel + 1, s => by
    intro h x hx
    rw [processTasksGo] at hx
    by_cases hemp : (topUp qs s).pending.isEmpty
    · simp only [hemp, if_true, List.mem_singleton] at hx
      exact hx ▸ h
    · simp only [hemp, if_false, Bool.false_eq_true, List.mem_cons] at hx
      rcases hx with rfl | hx
      · exact h
      · have h1 : (topUp qs s).pending.length ≤ qs := topUp_pending_le qs s h
        have h2 : (applyCycle (env (topUp qs s).cycle (topUp qs s).pending)
            (topUp qs s)).pending.length ≤ qs :=
          le_trans (applyCycle_pending_le _ _ (hc _ _)) h1
        exact processTasksGo_bound env qs hc fuel _ h2 x hx

/-- Claim C1: for every task sequence, every `queue_size ≥ 1` and every
executor satisfying the partition contract, the number of in-flight
handles in `pending` at the start of any top-up step never exceeds
`queue_size` — including after a failed indexing pass pushed a completed
batch back into `pending`. -/
theorem process_tasks_queue_bound (env : Nat → List WorkTask → CycleEnv)
    (qs fuel : Nat) (tasks : List WorkTask) (_hqs : 1 ≤ qs) (hc : ExecContract env) :
    ∀ x ∈ (process_tasks env qs fuel tasks).1, x ≤ qs :=
  processTasksGo_bound env qs hc fuel _ (by simp)

/-- Witness for claim C1 on a concrete run. -/
theorem process_tasks_queue_bound_witness :
    1 ≤ 2 ∧ ∀ x ∈ (process_tasks happyEnv 2 9
      [⟨(0, 0), 1⟩, ⟨(1, 1), 1⟩, ⟨(2, 2), 1⟩]).1, x ≤ 2 :=
  ⟨by decide, process_tasks_queue_bound happyEnv 2 9 _ (by decide) happyEnv_contract⟩

/-- Counterexample to claim C4 as stated: one task whose result carries
two logical datasets completes and is indexed in the happy path, yet the
returned counts are `(2, 0)` and `2 + 0 ≠ 1`: the success counter counts
logical datasets indexed, not tasks. -/
theorem process_tasks_sum_counterexample :
    (process_tasks happyEnv 1 3 [⟨(0, 0), 2⟩]).2 = some (2, 0) ∧ 2 + 0 ≠ 1 :=
  ⟨rfl, by decide⟩

/-- The success counter grows by the batch length when every dataset count
is one. -/
theorem sum_numDatasets_eq_length (l : List WorkTask) (h : ∀ t ∈ l, t.numDatasets = 1) :
    (l.map WorkTask.numDatasets).sum = l.length := by
  induction l with
  | nil => simp
  | cons a l ih =>
    simp only [List.map_cons, List.sum_cons, h a (List.mem_cons_self a l), List.length_cons]
    rw [ih (fun t ht => h t (List.mem_cons_of_mem a ht))]
    omega

/-- One cycle preserves `nSuccessful + nFailed + |tasks| + |pending|`
when every in-flight task carries one dataset and failed fetches raise;
it also keeps `tasks` and shrinks `pending` within the old `pending`. -/
theorem applyCycle_sum (r : CycleEnv) (s : SchedState)
    (hraise : ∀ t ∈ r.failed, r.resultRaises t = true)
    (hperm : (r.completed ++ r.failed ++ r.stillPending).Perm s.pending)
    (hd1 : ∀ t ∈ s.pending, t.numDatasets = 1) :
    (applyCycle r s).tasks = s.tasks ∧
    (∀ t ∈ (applyCycle r s).pending, t ∈ s.pending) ∧
    (applyCycle r s).nSuccessful + (applyCycle r s).nFailed + (applyCycle r s).pending.length
      = s.nSuccessful + s.nFailed + s.pending.length := by
  have hcnt : r.failed.countP r.resultRaises = r.failed.length :=
    List.countP_eq_length.mpr hraise
  have hlen := hperm.length_eq
  simp only [List.length_append] at hlen
  have hsub : ∀ t, (t ∈ r.completed ∨ t ∈ r.failed ∨ t ∈ r.stillPending) → t ∈ s.pending := by
    intro t ht
    apply hperm.subset
    rcases ht with h | h | h
    · exact List.mem_append.mpr (Or.inl (List.mem_append.mpr (Or.inl h)))
    · exact List.mem_append.mpr (Or.inl (List.mem_append.mpr (Or.inr h)))
    · exact List.mem_append.mpr (Or.inr h)
  by_cases hce : r.completed.isEmpty
  · have hceq : r.completed = [] := List.isEmpty_iff.mp hce
    unfold applyCycle
    rw [if_pos hce]
    refine ⟨rfl, fun t ht => hsub t (Or.inr (Or.inr ht)), ?_⟩
    simp only [hcnt]
    rw [hceq] at hlen
    simp only [List.length_nil] at hlen
    omega
  · by_cases hio : r.indexOk
    · have hsum : (r.completed.map WorkTask.numDatasets).sum = r.completed.length := by
        apply sum_numDatasets_eq_length
        intro t ht
        exact hd1 t (hsub t (Or.inl ht))
      unfold applyCycle
      rw [if_neg (by simp [hce]), if_pos hio]
      refine ⟨rfl, fun t ht => hsub t (Or.inr (Or.inr ht)), ?_⟩
      simp only [hcnt, hsum]
      omega
    · unfold applyCycle
      rw [if_neg (by simp [hce]), if_neg hio]
      refine ⟨rfl, ?_, ?_⟩
      · intro t ht
        rcases List.mem_append.mp ht with h | h
        · exact hsub t (Or.inr (Or.inr h))
        · exact hsub t (Or.inl h)
      · simp only [hcnt, List.length_append]
        omega

/-- Loop invariant behind the amended claim C4: at a `break`, the counters
absorb exactly the remaining work. -/
theorem processTasksGo_sum (env : Nat → List WorkTask → CycleEnv) (qs : Nat)
    (hqs : 1 ≤ qs) (hc : ExecContract env)
    (hraise : ∀ i p, ∀ t ∈ (env i p).failed, (env i p).resultRaises t = true) :
    ∀ fuel (s : SchedState) (succ nfail : Nat),
      (∀ t ∈ s.tasks, t.numDatasets = 1) → (∀ t ∈ s.pending, t.numDatasets = 1) →
      (processTasksGo env qs fuel s).2 = some (succ, nfail) →
      succ + nfail = s.nSuccessful + s.nFailed + s.tasks.length + s.pending.length
  | 0, s, succ, nfail => by
    intro _ _ hres
    simp [processTasksGo] at hres
  | fuel + 1, s, succ, nfail => by
    intro htasks hpending hres
    rw [processTasksGo] at hres
    by_cases hemp : (topUp qs s).pending.isEmpty
    · simp only [hemp, if_true] at hres
      have hres' := Option.some.inj hres
      have hsucc : succ = s.nSuccessful := by
        have := congrArg Prod.fst hres'
        simpa [topUp] using this.symm
      have hnfail : nfail = s.nFailed := by
        have := congrArg Prod.snd hres'
        simpa [topUp] using this.symm
      have hp : s.pending ++ s.tasks.take (qs - s.pending.length) = [] := by
        simpa [topUp] using List.isEmpty_iff.mp hemp
      have hpe : s.pending = [] := (List.append_eq_nil.mp hp).1
      have hte : s.tasks = [] := by
        have h2 := (List.append_eq_nil.mp hp).2
        rcases List.take_eq_nil_iff.mp h2 with h | h
        · rw [hpe] at h
          simp at h
          omega
        · exact h
      rw [hsucc, hnfail, hpe, hte]
      simp
    · simp only [hemp, if_false, Bool.false_eq_true] at hres
      have hd1p : ∀ t ∈ (topUp qs s).pending, t.numDatasets = 1 := by
        intro t ht
        simp only [topUp] at ht
        rcases List.mem_append.mp ht with h | h
        · exact hpending t h
        · exact htasks t (List.mem_of_mem_take h)
      have hd1t : ∀ t ∈ (topUp qs s).tasks, t.numDatasets = 1 := by
        intro t ht
        simp only [topUp] at ht
        exact htasks t (List.mem_of_mem_drop ht)
      have hacs := applyCycle_sum (env (topUp qs s).cycle (topUp qs s).pending) (topUp qs s)
        (hraise _ _) (hc _ _) hd1p
      have IH := processTasksGo_sum env qs hqs hc hraise fuel
        (applyCycle (env (topUp qs s).cycle (topUp qs s).pending) (topUp qs s)) succ nfail
        (by rw [hacs.1]; exact hd1t)
        (fun t ht => hd1p t (hacs.2.1 t ht))
        hres
      have hφ := hacs.2.2
      have htopn : (topUp qs s).nSuccessful = s.nSuccessful := rfl
      have htopf : (topUp qs s).nFailed = s.nFailed := rfl
      have htopt : (applyCycle (env (topUp qs s).cycle (topUp qs s).pending)
          (topUp qs s)).tasks.length = (topUp qs s).tasks.length := by rw [hacs.1]
      have hlens : (topUp qs s).tasks.length + (topUp qs s).pending.length
          = s.tasks.length + s.pending.length := by
        simp only [topUp, List.length_append, List.length_take, List.length_drop]
        omega
      omega

/-- Claim C4, amended: for a sequence of `N` tasks each carrying exactly
one logical dataset, any `queue_size ≥ 1` and any contract-satisfying
executor whose failed-result fetches raise, if `process_tasks` terminates
then the returned success and failure counts sum to `N`.  (As stated the
claim is false — see `process_tasks_sum_counterexample` — because the
success counter counts logical datasets, not tasks.) -/
theorem process_tasks_sum (env : Nat → List WorkTask → CycleEnv)
    (qs fuel : Nat) (tasks : List WorkTask) (succ nfail : Nat)
    (hqs : 1 ≤ qs) (hc : ExecContract env)
    (hraise : ∀ i p, ∀ t ∈ (env i p).failed, (env i p).resultRaises t = true)
    (hone : ∀ t ∈ tasks, t.numDatasets = 1)
    (hres : (process_tasks env qs fuel tasks).2 = some (succ, nfail)) :
    succ + nfail = tasks.length := by
  have h := processTasksGo_sum env qs hqs hc hraise fuel
    { tasks := tasks, pending := [], nSuccessful := 0, nFailed := 0, cycle := 0 }
    succ nfail hone (by simp) hres
  simpa using h

/-- Witness for the amended claim C4 on a concrete two-task run. -/
theorem process_tasks_sum_witness :
    (2 : Nat) + 0 = [(⟨(0, 0), 1⟩ : WorkTask), ⟨(1, 1), 1⟩].length :=
  process_tasks_sum happyEnv 1 5 [⟨(0, 0), 1⟩, ⟨(1, 1), 1⟩] 2 0 (by decide)
    happyEnv_contract (fun i p t ht => rfl) (by decide) rfl

/-- Claim C5: when the catalog-indexing pass over a non-empty completed
batch raises (`indexOk = false`), the whole batch is appended back onto
`pending` (nothing is dropped), the success counter is unchanged, the
loop does not terminate this cycle (`pending ≠ []`), and every completed
handle is still in `pending` when the next cycle's `get_ready` argument
is formed (after the next top-up). -/
theorem applyCycle_index_failure (qs : Nat) (r : CycleEnv) (s : SchedState)
    (hne : r.completed ≠ []) (hfail : r.indexOk = false) :
    (applyCycle r s).pending = r.stillPending ++ r.completed ∧
    (applyCycle r s).nSuccessful = s.nSuccessful ∧
    (∀ h ∈ r.completed, h ∈ (applyCycle r s).pending) ∧
    (applyCycle r s).pending ≠ [] ∧
    (∀ h ∈ r.completed, h ∈ (topUp qs (applyCycle r s)).pending) := by
  have hce : r.completed.isEmpty = false := List.isEmpty_eq_false.mpr hne
  have hpend : (applyCycle r s).pending = r.stillPending ++ r.completed := by
    unfold applyCycle
    rw [if_neg (by simp [hce]), if_neg (by simp [hfail])]
  have hmem : ∀ h ∈ r.completed, h ∈ (applyCycle r s).pending := by
    intro h hh
    rw [hpend]
    exact List.mem_append.mpr (Or.inr hh)
  refine ⟨hpend, ?_, hmem, ?_, ?_⟩
  · unfold applyCycle
    rw [if_neg (by simp [hce]), if_neg (by simp [hfail])]
  · rw [hpend]
    intro hcontra
    exact hne (List.append_eq_nil.mp hcontra).2
  · intro h hh
    simp only [topUp]
    exact List.mem_append.mpr (Or.inl (hmem h hh))

/-- Claim C9: in a cycle whose `get_ready` result genuinely partitions a
duplicate-free `pending` and whose failed-result fetches re-raise, the
failure counter grows by exactly the number of failed handles, no failed
handle remains in `pending` after the cycle, and — since fresh
submissions come only from the unconsumed task sequence — a failed handle
absent from that sequence is not in `pending` after the next top-up
either (it is never retried or re-submitted). -/
theorem applyCycle_failed_accounting (qs : Nat) (r : CycleEnv) (s : SchedState)
    (hperm : (r.completed ++ r.failed ++ r.stillPending).Perm s.pending)
    (hnd : s.pending.Nodup)
    (hraise : ∀ t ∈ r.failed, r.resultRaises t = true) :
    (applyCycle r s).nFailed = s.nFailed + r.failed.length ∧
    (∀ h ∈ r.failed, h ∉ (applyCycle r s).pending) ∧
    (∀ h ∈ r.failed, h ∉ s.tasks → h ∉ (topUp qs (applyCycle r s)).pending) := by
  have hcnt : r.failed.countP r.resultRaises = r.failed.length :=
    List.countP_eq_length.mpr hraise
  have hnd' : ((r.completed ++ r.failed) ++ r.stillPending).Nodup := by
    have := hperm.nodup_iff.mpr hnd
    simpa [List.append_assoc] using this
  have hnd1 := (List.nodup_append.mp hnd').1
  have hdisjS : (r.completed ++ r.failed).Disjoint r.stillPending :=
    (List.nodup_append.mp hnd').2.2
  have hdisjC : r.completed.Disjoint r.failed := (List.nodup_append.mp hnd1).2.2
  have hnotS : ∀ h ∈ r.failed, h ∉ r.stillPending := by
    intro h hh
    exact hdisjS (List.mem_append.mpr (Or.inr hh))
  have hnotC : ∀ h ∈ r.failed, h ∉ r.completed := by
    intro h hh hc
    exact hdisjC hc hh
  have hnf : (applyCycle r s).nFailed = s.nFailed + r.failed.length := by
    unfold applyCycle
    by_cases hce : r.completed.isEmpty <;> by_cases hio : r.indexOk <;>
      simp [hce, hio, hcnt]
  have hpendmem : ∀ h ∈ r.failed, h ∉ (applyCycle r s).pending := by
    intro h hh
    unfold applyCycle
    by_cases hce : r.completed.isEmpty <;> by_cases hio : r.indexOk <;>
      simp only [hce, hio, if_true, if_false, Bool.false_eq_true, Bool.true_eq_false,
        ite_true, ite_false] <;>
      first
        | exact hnotS h hh
        | (intro hc
           rcases List.mem_append.mp hc with h1 | h1
           · exact hnotS h hh h1
           · exact hnotC h hh h1)
  refine ⟨hnf, hpendmem, ?_⟩
  intro h hh htask
  simp only [topUp]
  intro hc
  rcases List.mem_append.mp hc with h1 | h1
  · exact hpendmem h hh h1
  · have : (applyCycle r s).tasks = s.tasks := by
      unfold applyCycle
      by_cases hce : r.completed.isEmpty <;> by_cases hio : r.indexOk <;>
        simp [hce, hio]
    rw [this] at h1
    exact htask (List.mem_of_mem_take h1)

/-- Concrete one-dataset task used by the scheduler witnesses. -/
def tA : WorkTask := ⟨(0, 0), 1⟩

/-- Concrete one-dataset task used by the scheduler witnesses. -/
def tB : WorkTask := ⟨(1, 1), 1⟩

/-- Concrete two-dataset task used by the scheduler witnesses. -/
def tC : WorkTask := ⟨(2, 2), 2⟩

/-- A cycle in which `tA` completed, `tB` failed, and indexing raises. -/
def r0 : CycleEnv :=
  { completed := [tA], failed := [tB], stillPending := [], resultRaises := fun _ => true,
    indexOk := false }

/-- A loop state with `tA, tB` in flight and `tC` still unsubmitted. -/
def st0 : SchedState :=
  { tasks := [tC], pending := [tA, tB], nSuccessful := 0, nFailed := 0, cycle := 0 }

/-- Witness for claim C5 at a concrete cycle. -/
theorem applyCycle_index_failure_witness :
    (applyCycle r0 st0).pending = r0.stillPending ++ r0.completed ∧
    (applyCycle r0 st0).nSuccessful = st0.nSuccessful ∧
    (∀ h ∈ r0.completed, h ∈ (applyCycle r0 st0).pending) ∧
    (applyCycle r0 st0).pending ≠ [] ∧
    (∀ h ∈ r0.completed, h ∈ (topUp 3 (applyCycle r0 st0)).pending) :=
  applyCycle_index_failure 3 r0 st0 (by decide) rfl

/-- Witness for claim C9 at a concrete cycle. -/
theorem applyCycle_failed_accounting_witness :
    (applyCycle r0 st0).nFailed = st0.nFailed + r0.failed.length ∧
    (∀ h ∈ r0.failed, h ∉ (applyCycle r0 st0).pending) ∧
    (∀ h ∈ r0.failed, h ∉ st0.tasks → h ∉ (topUp 3 (applyCycle r0 st0)).pending) :=
  applyCycle_failed_accounting 3 r0 st0 (by decide) (by decide) (by decide)

/-! ## Chunk index store (`DatasetResource` in drivers/s3/index.py)

The relational store is a record of three row lists; a transaction is a
fallible state transformation that is committed on success and discarded
(rolled back) on any exception.  `uuid4()` is modelled by a fresh-number
supply threaded through the transaction; whether a given write raises is
an oracle `fails` on the write/draw counter.  `np.asscalar` is the
identity on the embedded numeric scalars. -/

/-- Right-pads the irregular per-axis coordinate lists with the null
sentinel to the maximum length across axes
(`_add_s3_dataset`, s3/index.py lines 105-110): the entries that are
`None` (regular axes) are dropped, the rest are padded. -/
def padIrregular (idxs : List (Option (List Int))) : List (List (Option Int)) :=
  let irr := (idxs.filterMap id).map (fun l => l.map some)
  if irr.isEmpty then irr
  else
    let m := (irr.map List.length).foldl Nat.max 0
    irr.map (fun row => row ++ List.replicate (m - row.length) none)

/-- Strips the trailing null sentinels from an encoded row (the decoding
direction of the round-trip claim). -/
def stripPad (row : List (Option Int)) : List (Option Int) :=
  (row.reverse.dropWhile (fun x => x.isNone)).reverse

/-- One entry of a band's `key_maps` (the storage-driver output described
in the spec): storage key, chunk id, compression, per-axis slice bounds
and per-axis coordinate bounds. -/
structure KeyMap where
  s3_key : String
  chunk_id : Nat
  compression : String
  chunk : List (Int × Int)
  index_min : List Int
  index_max : List Int
deriving DecidableEq, Repr

/-- One band's entry of `storage_output` as consumed by
`_add_s3_dataset` / `_add_s3_dataset_chunks`.  `outer_shape` embeds the
source's `macro_shape` field. -/
structure BandOutput where
  base_name : String
  bucket : String
  outer_shape : List Nat
  chunk_size : List Nat
  numpy_type : String
  dimensions : List String
  regular_dims : List Bool
  regular_index : List (Option (List Int))
  irregular_index : List (Option (List Int))
  key_maps : List KeyMap
deriving DecidableEq, Repr

/-- A row of the `S3_DATASET` table (the PhysicalChunkSet entity) as
written by `put_s3_dataset`; `outer_shape` embeds `macro_shape`; ids are
the modelled uuids. -/
structure S3DatasetRow where
  id : Nat
  base_name : String
  band : String
  bucket : String
  outer_shape : List Nat
  chunk_size : List Nat
  numpy_type : String
  dimensions : List String
  regular_dims : List Bool
  regular_index : List (List Int)
  irregular_index : List (List (Option Int))
deriving DecidableEq, Repr

/-- A row of the `S3_DATASET_CHUNK` table (the PhysicalChunk entity) as
written by `put_s3_dataset_chunk`. -/
structure S3ChunkRow where
  id : Nat
  s3_dataset_id : Nat
  s3_key : String
  chunk_id : Nat
  compression_scheme : String
  micro_shape : List Int
  index_min : List Int
  index_max : List Int
deriving DecidableEq, Repr

/-- A row of the `S3_DATASET_MAPPING` table (the DatasetChunkMapping
entity) as written by `put_s3_mapping`. -/
structure S3MappingRow where
  id : Nat
  dataset_ref : Nat
  band : String
  s3_dataset_id : Nat
deriving DecidableEq, Repr

/-- The three s3 tables. -/
structure S3DB where
  s3_datasets : List S3DatasetRow
  s3_chunks : List S3ChunkRow
  s3_mappings : List S3MappingRow
deriving DecidableEq, Repr

/-- Transaction state: the database plus the fresh-number supply used for
`uuid4()` draws and for numbering the writes seen by the failure
oracle. -/
structure TxState where
  db : S3DB
  ctr : Nat
deriving DecidableEq, Repr

/-- The `S3_DATASET` row built by `_add_s3_dataset` (s3/index.py lines
88-129): regular indices keep the non-`None` axes coerced to scalars,
irregular indices are padded to uniform row length. -/
def mkDatasetRow (sid : Nat) (band : String) (o : BandOutput) : S3DatasetRow :=
  { id := sid, base_name := o.base_name, band := band, bucket := o.bucket,
    outer_shape := o.outer_shape, chunk_size := o.chunk_size,
    numpy_type := o.numpy_type, dimensions := o.dimensions,
    regular_dims := o.regular_dims,
    regular_index := o.regular_index.filterMap id,
    irregular_index := padIrregular o.irregular_index }

/-- `_add_s3_dataset`: one fallible `put_s3_dataset` write. -/
def insertS3Dataset (fails : Nat → Bool) (sid : Nat) (band : String) (o : BandOutput)
    (s : TxState) : Except Unit TxState :=
  if fails s.ctr then .error ()
  else .ok { db := { s.db with s3_datasets := s.db.s3_datasets ++ [mkDatasetRow sid band o] },
             ctr := s.ctr + 1 }

/-- The `S3_DATASET_CHUNK` row built by `_add_s3_dataset_chunks`
(s3/index.py lines 131-157): the micro shape is
`chunk_dim.stop - chunk_dim.start` per axis. -/
def mkChunkRow (rowId sid : Nat) (km : KeyMap) : S3ChunkRow :=
  { id := rowId, s3_dataset_id := sid, s3_key := km.s3_key, chunk_id := km.chunk_id,
    compression_scheme := km.compression,
    micro_shape := km.chunk.map (fun cd => cd.2 - cd.1),
    index_min := km.index_min, index_max := km.index_max }

/-- `_add_s3_dataset_chunks`: one fallible `put_s3_dataset_chunk` write
per entry of `key_maps`. -/
def insertChunks (fails : Nat → Bool) (sid : Nat) : List KeyMap → TxState → Except Unit TxState
  | [], s => .ok s
  | km :: rest, s =>
    if fails s.ctr then .error ()
    else insertChunks fails sid rest
      { db := { s.db with s3_chunks := s.db.s3_chunks ++ [mkChunkRow s.ctr sid km] },
        ctr := s.ctr + 1 }

/-- The `S3_DATASET_MAPPING` row built by `_add_s3_dataset_mappings`
(s3/index.py lines 159-174). -/
def mkMappingRow (rowId : Nat) (ref : Nat) (band : String) (sid : Nat) : S3MappingRow :=
  { id := rowId, dataset_ref := ref, band := band, s3_dataset_id := sid }

/-- `_add_s3_dataset_mappings`: one fallible `put_s3_mapping` write per
dataset reference. -/
def insertMappings (fails : Nat → Bool) (sid : Nat) (band : String) :
    List Nat → TxState → Except Unit TxState
  | [], s => .ok s
  | ref :: rest, s =>
    if fails s.ctr then .error ()
    else insertMappings fails sid band rest
      { db := { s.db with s3_mappings := s.db.s3_mappings ++ [mkMappingRow s.ctr ref band sid] },
        ctr := s.ctr + 1 }

/-- The body of one iteration of the band loop in `add_s3_tables`
(s3/index.py lines 187-198): draw a fresh uuid for the band, then the
three writes in order. -/
def bandTx (fails : Nat → Bool) (refs : List Nat) (band : String) (o : BandOutput)
    (s : TxState) : Except Unit TxState :=
  match insertS3Dataset fails s.ctr band o { s with ctr := s.ctr + 1 } with
  | .error e => .error e
  | .ok s1 =>
    match insertChunks fails s.ctr o.key_maps s1 with
    | .error e => .error e
    | .ok s2 => insertMappings fails s.ctr band refs s2

/-- The whole band loop of `add_s3_tables` inside the transaction. -/
def bandsTx (fails : Nat → Bool) (refs : List Nat) :
    List (String × BandOutput) → TxState → Except Unit TxState
  | [], s => .ok s
  | (band, o) :: rest, s =>
    match bandTx fails refs band o s with
    | .error e => .error e
    | .ok s1 => bandsTx fails refs rest s1

/-- Embedding of `DatasetResource.add_s3_tables` (s3/index.py lines
176-198): `with self._db.begin() as transaction:` wraps the whole band
loop, so the database is committed on success and rolled back unchanged
on any exception. -/
def add_s3_tables (fails : Nat → Bool) (ctr0 : Nat) (refs : List Nat)
    (storage_output : List (String × BandOutput)) (db : S3DB) : S3DB :=
  match bandsTx fails refs storage_output { db := db, ctr := ctr0 } with
  | .ok s => s.db
  | .error _ => db

/-! ### Chunk index store theorems (claims C6, C7) -/

/-- The initial accumulator never exceeds a `foldl max`. -/
theorem le_foldl_max (l : List Nat) : ∀ a, a ≤ l.foldl Nat.max a := by
  induction l with
  | nil => intro a; exact Nat.le_refl a
  | cons b l ih =>
    intro a
    exact le_trans (Nat.le_max_left a b) (ih (Nat.max a b))

/-- Every member of a list is bounded by its `foldl max`. -/
theorem mem_le_foldl_max (l : List Nat) (x : Nat) (hx : x ∈ l) :
    ∀ a, x ≤ l.foldl Nat.max a := by
  induction l with
  | nil => cases hx
  | cons b l ih =>
    intro a
    rcases List.mem_cons.mp hx with rfl | hx'
    · exact le_trans (Nat.le_max_right a x) (le_foldl_max l (Nat.max a x))
    · exact ih hx' (Nat.max a b)

/-- Dropping leading sentinels past a sentinel prefix. -/
theorem dropWhile_replicate_append (k : Nat) (xs : List (Option Int)) :
    (List.replicate k (none : Option Int) ++ xs).dropWhile (fun x => x.isNone)
      = xs.dropWhile (fun x => x.isNone) := by
  induction k with
  | zero => simp
  | succ k ih => simp [List.replicate_succ, List.dropWhile_cons, ih]

/-- `dropWhile` is the identity when no element satisfies the predicate
at the head. -/
theorem dropWhile_eq_self_of_all_false (p : Option Int → Bool) (xs : List (Option Int))
    (h : ∀ x ∈ xs, p x = false) : xs.dropWhile p = xs := by
  cases xs with
  | nil => rfl
  | cons a l => simp [List.dropWhile_cons, h a (List.mem_cons_self a l)]

/-- Stripping the padding recovers a padded row exactly. -/
theorem stripPad_pad (l : List Int) (k : Nat) :
    stripPad (l.map some ++ List.replicate k none) = l.map some := by
  unfold stripPad
  rw [List.reverse_append, List.reverse_replicate, dropWhile_replicate_append,
    dropWhile_eq_self_of_all_false]
  · rw [List.reverse_reverse]
  · intro x hx
    rw [List.mem_reverse] at hx
    rcases List.mem_map.mp hx with ⟨y, _, rfl⟩
    rfl

/-- Claim C7: for a non-empty collection of non-empty irregular per-axis
coordinate lists, the `_add_s3_dataset` encoding pads every list with the
null sentinel to exactly the maximum length across the lists (all encoded
rows have equal length), and stripping the trailing sentinels from each
encoded row recovers the original list exactly. -/
theorem padIrregular_roundtrip (axes : List (List Int))
    (hne : axes ≠ []) (_hnonempty : ∀ l ∈ axes, l ≠ []) :
    (padIrregular (axes.map some)).length = axes.length ∧
    (∀ row ∈ padIrregular (axes.map some),
      row.length = (axes.map List.length).foldl Nat.max 0) ∧
    (∀ i : Nat, (padIrregular (axes.map some))[i]?.map stripPad
      = axes[i]?.map (fun l => l.map some)) := by
  have hfm : (axes.map some).filterMap id = axes := by
    rw [List.filterMap_map]
    simp
  have hlen : ((axes.map (fun l => l.map some)).map List.length)
      = axes.map List.length := by
    rw [List.map_map]
    apply List.map_congr_left
    intro l _
    simp
  have hie : (axes.map (fun l => l.map some)).isEmpty = false := by
    rw [List.isEmpty_eq_false]
    intro hcontra
    exact hne (List.map_eq_nil_iff.mp hcontra)
  have hpad : padIrregular (axes.map some)
      = (axes.map (fun l => l.map some)).map
          (fun row => row ++ List.replicate
            (((axes.map List.length).foldl Nat.max 0) - row.length) none) := by
    unfold padIrregular
    rw [hfm, if_neg (by simp [hie]), hlen]
  refine ⟨?_, ?_, ?_⟩
  · rw [hpad]
    simp
  · intro row hrow
    rw [hpad] at hrow
    rcases List.mem_map.mp hrow with ⟨row', hrow', rfl⟩
    rcases List.mem_map.mp hrow' with ⟨l, hl, rfl⟩
    have hle : l.length ≤ (axes.map List.length).foldl Nat.max 0 :=
      mem_le_foldl_max _ _ (List.mem_map.mpr ⟨l, hl, rfl⟩) 0
    simp only [List.length_append, List.length_replicate, List.length_map]
    omega
  · intro i
    rw [hpad, List.getElem?_map, List.getElem?_map]
    cases h : axes[i]? with
    | none => rfl
    | some l =>
      simp only [Option.map_some']
      rw [stripPad_pad]

/-- Witness for claim C7: two irregular axes of lengths 1 and 3. -/
theorem padIrregular_roundtrip_witness :
    (padIrregular ([[5], [1, 2, 3]].map some)).length = [[(5 : Int)], [1, 2, 3]].length ∧
    (∀ row ∈ padIrregular ([[5], [1, 2, 3]].map some),
      row.length = ([[(5 : Int)], [1, 2, 3]].map List.length).foldl Nat.max 0) ∧
    (∀ i : Nat, (padIrregular ([[5], [1, 2, 3]].map some))[i]?.map stripPad
      = [[(5 : Int)], [1, 2, 3]][i]?.map (fun l => l.map some)) :=
  padIrregular_roundtrip [[5], [1, 2, 3]] (by decide) (by decide)

/-- A successful `insertChunks` run touches only the chunk table, adds
one row per key map, and advances the fresh-number supply. -/
theorem insertChunks_ok (fails : Nat → Bool) (sid : Nat) :
    ∀ (kms : List KeyMap) (s s' : TxState),
      insertChunks fails sid kms s = .ok s' →
      s'.db.s3_datasets = s.db.s3_datasets ∧ s'.db.s3_mappings = s.db.s3_mappings ∧
      s'.db.s3_chunks.length = s.db.s3_chunks.length + kms.length ∧
      s.ctr ≤ s'.ctr
  | [], s, s' => by
    intro h
    have : s = s' := by
      simpa [insertChunks] using h
    subst this
    simp
  | km :: rest, s, s' => by
    intro h
    rw [insertChunks] at h
    by_cases hf : fails s.ctr
    · rw [if_pos hf] at h
      cases h
    · rw [if_neg hf] at h
      have IH := insertChunks_ok fails sid rest _ s' h
      simp only [List.length_append, List.length_singleton] at IH
      refine ⟨IH.1, IH.2.1, ?_, ?_⟩
      · simp only [List.length_cons]
        omega
      · have := IH.2.2.2
        simp only at this
        omega

/-- A successful `insertMappings` run touches only the mapping table,
adds one row per dataset reference, and advances the supply. -/
theorem insertMappings_ok (fails : Nat → Bool) (sid : Nat) (band : String) :
    ∀ (refs : List Nat) (s s' : TxState),
      insertMappings fails sid band refs s = .ok s' →
      s'.db.s3_datasets = s.db.s3_datasets ∧ s'.db.s3_chunks = s.db.s3_chunks ∧
      s'.db.s3_mappings.length = s.db.s3_mappings.length + refs.length ∧
      s.ctr ≤ s'.ctr
  | [], s, s' => by
    intro h
    have : s = s' := by
      simpa [insertMappings] using h
    subst this
    simp
  | ref :: rest, s, s' => by
    intro h
    rw [insertMappings] at h
    by_cases hf : fails s.ctr
    · rw [if_pos hf] at h
      cases h
    · rw [if_neg hf] at h
      have IH := insertMappings_ok fails sid band rest _ s' h
      simp only [List.length_append, List.length_singleton] at IH
      refine ⟨IH.1, IH.2.1, ?_, ?_⟩
      · simp only [List.length_cons]
        omega
      · have := IH.2.2.2
        simp only at this
        omega

/-- A successful band iteration appends exactly one chunk-set row (with
the band's fresh uuid), `key_maps.length` chunk rows and `refs.length`
mapping rows, and strictly advances the supply. -/
theorem bandTx_ok (fails : Nat → Bool) (refs : List Nat) (band : String) (o : BandOutput)
    (s s' : TxState) (h : bandTx fails refs band o s = .ok s') :
    s'.db.s3_datasets = s.db.s3_datasets ++ [mkDatasetRow s.ctr band o] ∧
    s'.db.s3_chunks.length = s.db.s3_chunks.length + o.key_maps.length ∧
    s'.db.s3_mappings.length = s.db.s3_mappings.length + refs.length ∧
    s.ctr < s'.ctr := by
  rw [bandTx] at h
  cases h1 : insertS3Dataset fails s.ctr band o { s with ctr := s.ctr + 1 } with
  | error e => rw [h1] at h; cases h
  | ok s1 =>
    rw [h1] at h
    dsimp only at h
    cases h2 : insertChunks fails s.ctr o.key_maps s1 with
    | error e => rw [h2] at h; exact absurd h (by simp)
    | ok s2 =>
      rw [h2] at h
      dsimp only at h
      have hins : s1.db.s3_datasets = s.db.s3_datasets ++ [mkDatasetRow s.ctr band o] ∧
          s1.db.s3_chunks = s.db.s3_chunks ∧ s1.db.s3_mappings = s.db.s3_mappings ∧
          s1.ctr = s.ctr + 2 := by
        rw [insertS3Dataset] at h1
        by_cases hf : fails (s.ctr + 1)
        · rw [if_pos (by simpa using hf)] at h1
          cases h1
        · rw [if_neg (by simpa using hf)] at h1
          have := Except.ok.inj h1
          subst this
          simp
      have hchunks := insertChunks_ok fails s.ctr o.key_maps s1 s2 h2
      have hmaps := insertMappings_ok fails s.ctr band refs s2 s' h
      refine ⟨?_, ?_, ?_, ?_⟩
      · rw [hmaps.1, hchunks.1, hins.1]
      · rw [hmaps.2.1] at *
        rw [hchunks.2.2.1, hins.2.1]
      · rw [hmaps.2.2.1, hchunks.2.1, hins.2.2.1]
      · have h3 := hchunks.2.2.2
        have h4 := hmaps.2.2.2
        omega

/-- A successful run of the whole band loop appends one chunk-set row per
band with strictly increasing (hence pairwise distinct) fresh uuids, the
chunk rows of every band, and one mapping row per band and dataset
reference. -/
theorem bandsTx_ok (fails : Nat → Bool) (refs : List Nat) :
    ∀ (bands : List (String × BandOutput)) (s s' : TxState),
      bandsTx fails refs bands s = .ok s' →
      ∃ new : List S3DatasetRow,
        s'.db.s3_datasets = s.db.s3_datasets ++ new ∧
        new.length = bands.length ∧
        (∀ row ∈ new, s.ctr ≤ row.id) ∧
        (new.map S3DatasetRow.id).Pairwise (· < ·) ∧
        s'.db.s3_chunks.length = s.db.s3_chunks.length
          + (bands.map (fun b => b.2.key_maps.length)).sum ∧
        s'.db.s3_mappings.length = s.db.s3_mappings.length + bands.length * refs.length ∧
        s.ctr ≤ s'.ctr
  | [], s, s' => by
    intro h
    have : s = s' := by simpa [bandsTx] using h
    subst this
    exact ⟨[], by simp, rfl, by simp, by simp, by simp, by simp, Nat.le_refl _⟩
  | (band, o) :: rest, s, s' => by
    intro h
    rw [bandsTx] at h
    cases h1 : bandTx fails refs band o s with
    | error e => rw [h1] at h; exact absurd h (by simp)
    | ok s1 =>
      rw [h1] at h
      dsimp only at h
      have hb := bandTx_ok fails refs band o s s1 h1
      obtain ⟨new', hds, hlen, hbound, hpw, hchunks, hmaps, hctr⟩ :=
        bandsTx_ok fails refs rest s1 s' h
      refine ⟨mkDatasetRow s.ctr band o :: new', ?_, ?_, ?_, ?_, ?_, ?_, ?_⟩
      · rw [hds, hb.1, List.append_assoc]
        rfl
      · simp [hlen]
      · intro row hrow
        rcases List.mem_cons.mp hrow with rfl | hrow'
        · exact Nat.le_refl _
        · exact le_trans (le_of_lt hb.2.2.2) (hbound row hrow')
      · rw [List.map_cons, List.pairwise_cons]
        constructor
        · intro b hb'
          rcases List.mem_map.mp hb' with ⟨row, hrow, rfl⟩
          have h5 : s1.ctr ≤ row.id := hbound row hrow
          have h6 : s.ctr < s1.ctr := hb.2.2.2
          show s.ctr < row.id
          omega
        · exact hpw
      · rw [hchunks, hb.2.1, List.map_cons, List.sum_cons]
        dsimp only
        omega
      · rw [hmaps, hb.2.2.1]
        simp only [List.length_cons, Nat.succ_mul]
        omega
      · exact le_trans (le_of_lt hb.2.2.2) hctr

/-- Claim C6: `add_s3_tables` runs the chunk-set, chunk and mapping
writes of all bands inside one transaction with a freshly drawn uuid per
band: if any write of any band raises, the whole call leaves the database
exactly unchanged (zero rows of any of the three kinds persist); on
success all rows of all bands are appended, with pairwise-distinct fresh
chunk-set uuids. -/
theorem add_s3_tables_atomic (fails : Nat → Bool) (refs : List Nat)
    (storage_output : List (String × BandOutput)) (db : S3DB) (ctr0 : Nat) :
    (∀ e, bandsTx fails refs storage_output { db := db, ctr := ctr0 } = .error e →
      add_s3_tables fails ctr0 refs storage_output db = db) ∧
    (∀ s', bandsTx fails refs storage_output { db := db, ctr := ctr0 } = .ok s' →
      add_s3_tables fails ctr0 refs storage_output db = s'.db ∧
      s'.db.s3_datasets.length = db.s3_datasets.length + storage_output.length ∧
      s'.db.s3_chunks.length = db.s3_chunks.length
        + (storage_output.map (fun b => b.2.key_maps.length)).sum ∧
      s'.db.s3_mappings.length = db.s3_mappings.length
        + storage_output.length * refs.length ∧
      ((s'.db.s3_datasets.drop db.s3_datasets.length).map S3DatasetRow.id).Pairwise
        (· < ·)) := by
  constructor
  · intro e he
    unfold add_s3_tables
    rw [he]
  · intro s' hs
    obtain ⟨new, hds, hlen, hbound, hpw, hchunks, hmaps, hctr⟩ :=
      bandsTx_ok fails refs storage_output { db := db, ctr := ctr0 } s' hs
    refine ⟨?_, ?_, ?_, ?_, ?_⟩
    · unfold add_s3_tables
      rw [hs]
    · rw [hds]
      simp [hlen]
    · simpa using hchunks
    · simpa using hmaps
    · rw [hds]
      have hdrop : (db.s3_datasets ++ new).drop db.s3_datasets.length = new :=
        List.drop_left db.s3_datasets new
      simp only at hdrop ⊢
      rw [hdrop]
      exact hpw

/-- A concrete chunk descriptor for the C6 witness. -/
def km0 : KeyMap :=
  { s3_key := "k0", chunk_id := 0, compression := "none",
    chunk := [(0, 2), (0, 2)], index_min := [0, 0], index_max := [2, 2] }

/-- A concrete band output for the C6 witness. -/
def out0 : BandOutput :=
  { base_name := "b", bucket := "bkt", outer_shape := [1, 1], chunk_size := [2, 2],
    numpy_type := "float32", dimensions := ["x", "y"], regular_dims := [true, false],
    regular_index := [some [0, 2, 1], none], irregular_index := [none, some [4, 7]],
    key_maps := [km0] }

/-- The empty database. -/
def db0 : S3DB := { s3_datasets := [], s3_chunks := [], s3_mappings := [] }

/-- Witness for claim C6: the second write of the transaction raises, and
the whole call leaves the database unchanged. -/
theorem add_s3_tables_atomic_witness :
    add_s3_tables (fun n => n == 2) 0 [7] [("red", out0)] db0 = db0 :=
  (add_s3_tables_atomic (fun n => n == 2) [7] [("red", out0)] db0 0).1 () rfl

/-! ## `Index.add_datasets` (s3/index.py lines 38-65)

The base per-dataset indexing `self.datasets.add(dataset, 'skip')` is a
collaborator (`datacube.index._datasets`, not under src/): it either
returns normally or raises some base-indexing exception, modelled as
`baseAdd : Nat → Except Nat Unit` over dataset ids.  `add_s3_tables` is
abstracted to the boolean "s3-table indexing was invoked" in the result,
since claim C8 is about when it is reached. -/

/-- The possible exceptions of `add_datasets`: a `ValueError` with its
message, or a propagated base-indexing exception. -/
inductive IndexError where
  | valueError : String → IndexError
  | baseError : Nat → IndexError
deriving DecidableEq, Repr

/-- The `datasets` argument of `add_datasets`: whether
`'storage_output' in datasets.attrs`, and `datasets.values` as dataset
ids (for a 1-D dataset array `len(datasets) = len(datasets.values)`). -/
structure DatasetBatch where
  hasStorageOutput : Bool
  values : List Nat
deriving DecidableEq, Repr

/-- The `for dataset in datasets.values:` loop of `add_datasets`
(s3/index.py lines 57-60): each iteration calls the base `add` —
propagating its exception if it raises — and increments `n`
unconditionally. -/
def addLoop (baseAdd : Nat → Except Nat Unit) : List Nat → Nat → Except IndexError Nat
  | [], n => .ok n
  | d :: ds, n =>
    match baseAdd d with
    | .error e => .error (.baseError e)
    | .ok _ => addLoop baseAdd ds (n + 1)

/-- Embedding of `Index.add_datasets` (s3/index.py lines 38-65).  The
`Bool` in the result records whether `add_s3_tables` was invoked. -/
def add_datasets (baseAdd : Nat → Except Nat Unit) (datasets : DatasetBatch) :
    Except IndexError (Nat × Bool) :=
  if !datasets.hasStorageOutput then
    .error (.valueError "s3 storage output not received, indexing aborted.")
  else
    match addLoop baseAdd datasets.values 0 with
    | .error e => .error e
    | .ok n =>
      if n = datasets.values.length then .ok (n, true)
      else .error
        (.valueError "Some datasets could not be indexed, hence no s3 indexing will happen.")

/-- A base indexing step that raises (error code 7) on dataset 2. -/
def base0 : Nat → Except Nat Unit := fun d => if d = 2 then .error 7 else .ok ()

/-- The loop counter `n` counts every iteration, so on normal exit it
always equals the number of values. -/
theorem addLoop_ok_length (baseAdd : Nat → Except Nat Unit) :
    ∀ (ds : List Nat) (n0 n : Nat), addLoop baseAdd ds n0 = .ok n → n = n0 + ds.length
  | [], n0, n => by
    intro h
    have : n0 = n := by simpa [addLoop] using h
    simp [← this]
  | d :: ds, n0, n => by
    intro h
    rw [addLoop] at h
    cases hb : baseAdd d with
    | error e => rw [hb] at h; exact absurd h (by simp)
    | ok u =>
      rw [hb] at h
      dsimp only at h
      have := addLoop_ok_length baseAdd ds (n0 + 1) n h
      simp only [List.length_cons]
      omega

/-- Every exception of the loop is a propagated base exception. -/
theorem addLoop_error_shape (baseAdd : Nat → Except Nat Unit) :
    ∀ (ds : List Nat) (n0 : Nat) (e : IndexError), addLoop baseAdd ds n0 = .error e →
      ∃ b, e = .baseError b
  | [], n0, e => by
    intro h
    exact absurd h (by simp [addLoop])
  | d :: ds, n0, e => by
    intro h
    rw [addLoop] at h
    cases hb : baseAdd d with
    | error b =>
      rw [hb] at h
      dsimp only at h
      exact ⟨b, (Except.error.inj h).symm⟩
    | ok u =>
      rw [hb] at h
      dsimp only at h
      exact addLoop_error_shape baseAdd ds (n0 + 1) e h

/-- Claim C8 settled against the code: (1) at the failing input — a batch
with `storage_output` whose second dataset's base indexing raises — the
call propagates the base exception, not the claimed `ValueError`;
(2) a batch without `storage_output` does raise the claimed `ValueError`
without s3 indexing; (3) every exception of `add_datasets` is either that
storage-output `ValueError` or a propagated base error, so the
`'Some datasets could not be indexed'` `ValueError` of line 64 is
unreachable — `n` always equals `len(datasets)`; (4) on success the
return value equals the number of datasets and s3-table indexing was
invoked. -/
theorem add_datasets_error_shape :
    add_datasets base0 { hasStorageOutput := true, values := [1, 2] }
      = .error (.baseError 7) ∧
    add_datasets base0 { hasStorageOutput := false, values := [1] }
      = .error (.valueError "s3 storage output not received, indexing aborted.") ∧
    (∀ (baseAdd : Nat → Except Nat Unit) (ds : DatasetBatch) (e : IndexError),
      add_datasets baseAdd ds = .error e →
      e = .valueError "s3 storage output not received, indexing aborted." ∨
      ∃ b, e = .baseError b) ∧
    (∀ (baseAdd : Nat → Except Nat Unit) (ds : DatasetBatch) (n : Nat) (s3 : Bool),
      add_datasets baseAdd ds = .ok (n, s3) → n = ds.values.length ∧ s3 = true) := by
  refine ⟨rfl, rfl, ?_, ?_⟩
  · intro baseAdd ds e h
    unfold add_datasets at h
    by_cases hso : ds.hasStorageOutput
    · rw [if_neg (by simp [hso])] at h
      cases hl : addLoop baseAdd ds.values 0 with
      | error e' =>
        rw [hl] at h
        dsimp only at h
        obtain ⟨b, rfl⟩ := addLoop_error_shape baseAdd ds.values 0 e' hl
        exact Or.inr ⟨b, (Except.error.inj h).symm⟩
      | ok n =>
        rw [hl] at h
        dsimp only at h
        have hn : n = ds.values.length := by
          simpa using addLoop_ok_length baseAdd ds.values 0 n hl
        rw [if_pos hn] at h
        cases h
    · rw [if_pos (by simp [hso])] at h
      exact Or.inl (Except.error.inj h).symm
  · intro baseAdd ds n s3 h
    unfold add_datasets at h
    by_cases hso : ds.hasStorageOutput
    · rw [if_neg (by simp [hso])] at h
      cases hl : addLoop baseAdd ds.values 0 with
      | error e' => rw [hl] at h; cases h
      | ok m =>
        rw [hl] at h
        dsimp only at h
        have hm : m = ds.values.length := by
          simpa using addLoop_ok_length baseAdd ds.values 0 m hl
        rw [if_pos hm] at h
        have hp := Except.ok.inj h
        have hfst : m = n := congrArg Prod.fst hp
        have hsnd : true = s3 := congrArg Prod.snd hp
        exact ⟨hfst ▸ hm, hsnd.symm⟩
    · rw [if_pos (by simp [hso])] at h
      cases h

/-- Witness for the C8 theorem: at the failing input the raised exception
is the propagated base error. -/
theorem add_datasets_error_shape_witness :
    ((.baseError 7 : IndexError)
        = .valueError "s3 storage output not received, indexing aborted." ∨
      ∃ b, (.baseError 7 : IndexError) = .baseError b) :=
  add_datasets_error_shape.2.2.1 base0 { hasStorageOutput := true, values := [1, 2] }
    (.baseError 7) rfl

/-! ## Memoized lineage lookup (`get_full_lineage`, ingest.py lines 191-193)

`@cachetools.cached(cache={}, key=lambda index, id_: id_)` wraps
`index.datasets.get(id_, include_sources=True)` with a process-wide dict
cache keyed by the dataset id alone.  The catalog is modelled as a
function from ids to lineage values, the cache as an association list
threaded through the calls. -/

/-- The module-level `cache={}` dict of the decorator. -/
abbrev LineageCache := List (Nat × Nat)

/-- Dict lookup by the decorator's key, `id_` alone. -/
def cacheLookup : LineageCache → Nat → Option Nat
  | [], _ => none
  | (k, v) :: rest, i => if k = i then some v else cacheLookup rest i

/-- Embedding of the decorated `get_full_lineage(index, id_)`: on a cache
hit the cached value is returned and `index` is not consulted; on a miss
`index` is consulted and the result is stored under `id_`. -/
def get_full_lineage (index : Nat → Nat) (cache : LineageCache) (id_ : Nat) :
    Nat × LineageCache :=
  match cacheLookup cache id_ with
  | some v => (v, cache)
  | none => (index id_, (id_, index id_) :: cache)

/-- Any interleaving of further `get_full_lineage` calls (each with its
own index argument and id). -/
def runCalls : List ((Nat → Nat) × Nat) → LineageCache → LineageCache
  | [], c => c
  | (idx, i) :: rest, c => runCalls rest (get_full_lineage idx c i).2

/-- A cache hit returns the cached value and leaves the cache alone. -/
theorem get_full_lineage_hit (index : Nat → Nat) (cache : LineageCache) (id_ v : Nat)
    (h : cacheLookup cache id_ = some v) :
    get_full_lineage index cache id_ = (v, cache) := by
  unfold get_full_lineage
  rw [h]

/-- After any call, the cache holds the returned value under the id. -/
theorem get_full_lineage_caches (index : Nat → Nat) (cache : LineageCache) (id_ : Nat) :
    cacheLookup (get_full_lineage index cache id_).2 id_
      = some (get_full_lineage index cache id_).1 := by
  unfold get_full_lineage
  cases h : cacheLookup cache id_ with
  | some v => exact h
  | none => simp [cacheLookup]

/-- Calls never overwrite or evict an existing cache entry. -/
theorem cacheLookup_mono (index : Nat → Nat) (cache : LineageCache) (i id_ v : Nat)
    (h : cacheLookup cache id_ = some v) :
    cacheLookup (get_full_lineage index cache i).2 id_ = some v := by
  unfold get_full_lineage
  cases hl : cacheLookup cache i with
  | some w => exact h
  | none =>
    dsimp only
    rw [cacheLookup]
    by_cases hii : i = id_
    · subst hii
      rw [hl] at h
      cases h
    · rw [if_neg hii]
      exact h

/-- Entry preservation across any sequence of calls. -/
theorem runCalls_mono (id_ v : Nat) : ∀ (calls : List ((Nat → Nat) × Nat)) (c : LineageCache),
    cacheLookup c id_ = some v →
    cacheLookup (runCalls calls c) id_ = some v
  | [], _c => fun h => h
  | (idx, i) :: rest, c => fun h =>
      runCalls_mono id_ v rest _ (cacheLookup_mono idx c i id_ v h)

/-- Claim C10: `get_full_lineage` is memoized by dataset id alone — once
a first call (with catalog `index1`) has returned a value for `id_`,
every subsequent call for `id_` with any catalog argument `index2`, after
any interleaving of other calls, returns that same cached value and does
not consult `index2` (the result and the cache are independent of
`index2`). -/
theorem get_full_lineage_memoized (index1 : Nat → Nat) (cache : LineageCache) (id_ : Nat)
    (calls : List ((Nat → Nat) × Nat)) (index2 : Nat → Nat) :
    (get_full_lineage index2
        (runCalls calls (get_full_lineage index1 cache id_).2) id_).1
      = (get_full_lineage index1 cache id_).1 ∧
    (get_full_lineage index2
        (runCalls calls (get_full_lineage index1 cache id_).2) id_).2
      = runCalls calls (get_full_lineage index1 cache id_).2 := by
  have h1 := get_full_lineage_caches index1 cache id_
  have h2 := runCalls_mono id_ _ calls _ h1
  have h3 := get_full_lineage_hit index2 _ id_ _ h2
  rw [h3]
  exact ⟨rfl, rfl⟩

end Datacube
